import Mathlib

/-!
Verification of the `dyn_path` repository (src/src/lib.rs, src/src/test.rs).

The repository exports two recursive `macro_rules` expansions:

* `dyn_access!` (lib.rs lines 103-124): expands a path
  `head .f1 [e1] .f2 ...` into a chain
  `let __ = Some(&head); let __ = __.and_then(|v| v.get(key)); ...`,
  where a field segment uses `stringify!(field)` as the key and an index
  segment uses its expression `$idx`, evaluated inside the `and_then`
  closure (hence only when the accumulator is present).

* `dyn_path!` (lib.rs lines 146-165): expands a path into a `String`
  built from `stringify!(head).to_string()` by appending `.{}` of the
  stringified field name for each field segment and `[{:?}]` of the
  evaluated index expression for each index segment, discarding the
  `core::fmt::Result` of each `write!`.

The expansions are shallowly embedded as recursion over a list of
segments.  Index-segment expressions are modelled as explicit state
transformers `σ → key × σ` so that evaluation order and side effects
(which the crate's laziness guarantees are about) are observable in the
embedding.  The uniform `.get` capability is a parameter
`get : V → K → Option V`, and `Option.bind` plays the role of
`Option::and_then` (whose closure is not invoked on `None`, so neither
the lookup nor an index expression runs once the accumulator is absent).
-/

set_option autoImplicit false

universe u v w

/-- A path segment of `dyn_access!`: either a field segment `. field`
(lib.rs line 113), carrying the name that `stringify!` turns into a
string key, or an index segment `[ idx ]` (lib.rs line 118), carrying
its expression, modelled as a state transformer producing a key of type
`K` together with the next state (the state records the expression's
side effects). -/
inductive Seg (K : Type u) (σ : Type v) where
  | field (name : String)
  | index (expr : σ → K × σ)

/-- The `@recurse` arms of `dyn_access!` (lib.rs lines 113-123): given
the uniform fetch capability `get`, the string-key embedding `sk`
(how a `stringify!`ed field name is passed to `.get`), the current
accumulator `Option V`, and the remaining segments, produce the final
accumulator and final state.  A field segment performs
`acc.and_then (fun v => v.get (stringify! field))`; an index segment
performs `acc.and_then (fun v => v.get idx)`, where `idx` is evaluated
inside the closure, hence only in the `some` case. -/
def dyn_access_go {V : Type w} {K : Type u} {σ : Type v}
    (get : V → K → Option V) (sk : String → K) :
    Option V → List (Seg K σ) → σ → Option V × σ
  | acc, [], _st => (acc, _st)
  | acc, Seg.field n :: rest, st =>
      dyn_access_go get sk (acc.bind fun v => get v (sk n)) rest st
  | acc, Seg.index e :: rest, st =>
      match acc with
      | none => dyn_access_go get sk none rest st
      | some v =>
          let p := e st
          dyn_access_go get sk (get v p.1) rest p.2

/-- The parenthesized-head entry arm of `dyn_access!` (lib.rs lines
108-111): `let __ = Some(&($head)); dyn_access!(@recurse __, rest)`. -/
def dyn_access_expr {V : Type w} {K : Type u} {σ : Type v}
    (get : V → K → Option V) (sk : String → K)
    (head : V) (segs : List (Seg K σ)) (st : σ) : Option V × σ :=
  dyn_access_go get sk (some head) segs st

/-- The bare-identifier head arm of `dyn_access!` (lib.rs lines
104-106): it delegates to the parenthesized arm,
`dyn_access!(($head) $rest)`. -/
def dyn_access_ident {V : Type w} {K : Type u} {σ : Type v}
    (get : V → K → Option V) (sk : String → K)
    (head : V) (segs : List (Seg K σ)) (st : σ) : Option V × σ :=
  dyn_access_expr get sk head segs st

/-- Keys accepted by the sample container's `.get`: string keys (object
fields / bracketed string indexing) or positional indices, mirroring
`serde_json::Value::get` as used by src/src/test.rs. -/
inductive JKey where
  | str (s : String)
  | idx (n : Nat)

/-- The sample nested container used by the test suite (a
`serde_json::Value`-like tree): strings, numbers, arrays and objects. -/
inductive JValue where
  | str (s : String)
  | num (n : Int)
  | arr (xs : List JValue)
  | obj (kvs : List (String × JValue))

/-- First-match association lookup on an object's key-value list,
mirroring map lookup behind `serde_json::Value::get(&str)`. -/
def lookupKV : List (String × JValue) → String → Option JValue
  | [], _ => none
  | (k, v) :: rest, key => if k == key then some v else lookupKV rest key

/-- The uniform fetch capability of the sample container: a string key
fetches from an object, a positional index fetches from an array, and
every other combination is absent, as with `serde_json::Value::get`. -/
def JValue.get : JValue → JKey → Option JValue
  | JValue.obj kvs, JKey.str k => lookupKV kvs k
  | JValue.arr xs, JKey.idx n => xs.get? n
  | _, _ => none

/-- A value as formatted by `write!(acc, "[{:?}]", ($idx))` in
`dyn_path!` (lib.rs line 160): an integer rendered in decimal, or a
string slice rendered with its surrounding quotes, as Rust's `Debug`
formats the index values appearing in this repository. -/
inductive DVal where
  | int (n : Int)
  | str (s : String)

/-- Rust `Debug` ("{:?}") text of a `DVal`: decimal digits for an
integer, the quoted text for a string slice (no escape-needing
characters occur in the repository's strings). -/
def DVal.debugFmt : DVal → String
  | DVal.int n => toString n
  | DVal.str s => "\"" ++ s ++ "\""

/-- A path segment of `dyn_path!`: a field segment `. field`
(lib.rs line 154) carrying its name, or an index segment `[ idx ]`
(lib.rs line 159) carrying its expression, modelled as a state
transformer producing the value to be `Debug`-formatted together with
the next state. -/
inductive PSeg (σ : Type v) where
  | field (name : String)
  | index (expr : σ → DVal × σ)

/-- `core::fmt::Result`: `Result<(), core::fmt::Error>`, with
`core::fmt::Error` a unit struct. -/
def WriteResult : Type := Except Unit Unit

/-- The `@recurse` arms of `dyn_path!` (lib.rs lines 154-164),
parameterized by the buffer-write operation `w` (the `core::fmt::Write`
capability used by `write!`), which returns a `core::fmt::Result`
together with the updated buffer.  Each step runs
`let _ = write!(acc, ...)`: the `WriteResult` component is discarded
(bound to `_`) and only the updated buffer is threaded on.  A field
segment writes `".{}"` of the stringified name; an index segment first
evaluates its expression, then writes `"[{:?}]"` of the value. -/
def dyn_path_goW {σ : Type v} (w : String → String → WriteResult × String) :
    String → List (PSeg σ) → σ → String × σ
  | acc, [], _st => (acc, _st)
  | acc, PSeg.field n :: rest, st =>
      let r := w acc ("." ++ n)
      dyn_path_goW w r.2 rest st
  | acc, PSeg.index e :: rest, st =>
      let p := e st
      let r := w acc ("[" ++ DVal.debugFmt p.1 ++ "]")
      dyn_path_goW w r.2 rest p.2

/-- The `core::fmt::Write` instance for `String` used by the expanded
code: it appends the written text to the buffer and always returns
`Ok(())` (writing into a `String` cannot fail). -/
def string_write (buf s : String) : WriteResult × String :=
  (Except.ok (), buf ++ s)

/-- The entry arm of `dyn_path!` (lib.rs lines 147-152): initialize the
buffer to `stringify!(head).to_string()` and recurse over the segments,
writing into the `String` buffer. -/
def dyn_path {σ : Type v} (head : String) (segs : List (PSeg σ)) (st : σ) :
    String × σ :=
  dyn_path_goW string_write head segs st

/-- A build configuration of the crate: which of the `std` and `alloc`
cargo features are active (lib.rs lines 48-51, 144, 169, 174). -/
structure BuildConfig where
  std : Bool
  alloc : Bool

/-- The two mutually exclusive definitions of the `__import_alloc!`
shim (lib.rs lines 167-175): one marked `cfg(feature = "alloc")` whose
expansion is the item `use $crate::alloc::string::ToString;`, one marked
`cfg(not(feature = "alloc"))` whose expansion is empty. -/
inductive ImportArm where
  | tostringUse
  | empty

/-- Which of the two `__import_alloc!` definitions is compiled in a
given configuration, per the `cfg` attributes on lib.rs lines 169 and
174. -/
def import_alloc_arm (c : BuildConfig) : ImportArm :=
  if c.alloc then ImportArm.tostringUse else ImportArm.empty

/-- The list of `use` items the compiled `__import_alloc!` expands to in
a given configuration (lib.rs lines 170 and 175). -/
def import_alloc_items (c : BuildConfig) : List String :=
  if c.alloc then ["use alloc::string::ToString;"] else []

/-- Modelled from the spec: the text-conversion capability
(`.to_string()` on the stringified head name, lib.rs line 150) that the
configuration puts in scope — via the explicit `ToString` item under the
`alloc` feature, implicitly via the standard prelude under `std`.  The
standard library's `ToString` implementations are not part of this
repository; per the spec the two are functionally identical, converting
the head's text to an owned string (the identity on the text). -/
def to_string_impl (_c : BuildConfig) (s : String) : String := s

/-- `dyn_path!` as compiled under a given build configuration: the head
text is converted by that configuration's text-conversion capability and
the segments are then processed as in `dyn_path`. -/
def dyn_path_cfg {σ : Type v} (c : BuildConfig) (head : String)
    (segs : List (PSeg σ)) (st : σ) : String × σ :=
  dyn_path (to_string_impl c head) segs st

/-- The container built by `map()` in src/src/test.rs lines 9-22:
`{"very": {"nested": ["bunch","of","values"], "or": {"numbers": 50}}}`. -/
def testMap : JValue :=
  JValue.obj
    [("very",
      JValue.obj
        [("nested", JValue.arr [JValue.str "bunch", JValue.str "of", JValue.str "values"]),
         ("or", JValue.obj [("numbers", JValue.num 50)])])]

/-- Follows the spec's words (§3 "Generated Path String", §4.2): the
left-to-right rendering of a segment list — `.name` for each field
segment, the index value's debug-style text wrapped in square brackets
for each index segment, each index expression fully evaluated (state
threaded left to right) before formatting. -/
def spec_render_segs {σ : Type v} : List (PSeg σ) → σ → String × σ
  | [], st => ("", st)
  | PSeg.field n :: rest, st =>
      let p := spec_render_segs rest st
      ("." ++ n ++ p.1, p.2)
  | PSeg.index e :: rest, st =>
      let v := e st
      let p := spec_render_segs rest v.2
      ("[" ++ DVal.debugFmt v.1 ++ "]" ++ p.1, p.2)

/-- An instrumented `dyn_access!` segment: fields as before; an index
segment carries a distinguishing label and a (state-independent) key.
Turning it into a `Seg` over the state `List Nat` (via `logSeg`) makes
the index expression's side effect observable: evaluating it appends
its label to the log. -/
inductive TSeg (K : Type u) where
  | field (name : String)
  | index (label : Nat) (key : K)

/-- The instrumented segment as a `Seg` whose index expression logs its
label when (and only when) it is evaluated. -/
def logSeg {K : Type u} : TSeg K → Seg K (List Nat)
  | TSeg.field n => Seg.field n
  | TSeg.index l k => Seg.index (fun log => (k, log ++ [l]))

/-- Reference trace of `dyn_access!` over instrumented segments: the
labels of exactly those index segments whose step executes with a
present accumulator, in execution order.  Once the accumulator is
absent no further label is emitted. -/
def accessTrace {V : Type w} {K : Type u}
    (get : V → K → Option V) (sk : String → K) :
    Option V → List (TSeg K) → List Nat
  | _, [] => []
  | none, _ :: _ => []
  | some v, TSeg.field n :: rest => accessTrace get sk (get v (sk n)) rest
  | some v, TSeg.index l k :: rest => l :: accessTrace get sk (get v k) rest

/-- The labels of all index segments of an instrumented segment list,
in order. -/
def indexLabels {K : Type u} : List (TSeg K) → List Nat
  | [] => []
  | TSeg.field _ :: rest => indexLabels rest
  | TSeg.index l _ :: rest => l :: indexLabels rest

/-- An instrumented `dyn_path!` segment: fields as before; an index
segment carries a distinguishing label and the value its expression
yields. -/
inductive TPSeg where
  | field (name : String)
  | index (label : Nat) (v : DVal)

/-- The instrumented path segment as a `PSeg` whose index expression
logs its label when it is evaluated. -/
def logPSeg : TPSeg → PSeg (List Nat)
  | TPSeg.field n => PSeg.field n
  | TPSeg.index l v => PSeg.index (fun log => (v, log ++ [l]))

/-- The labels of all index segments of an instrumented path-segment
list, in order. -/
def pIndexLabels : List TPSeg → List Nat
  | [] => []
  | TPSeg.field _ :: rest => pIndexLabels rest
  | TPSeg.index l _ :: rest => l :: pIndexLabels rest

/-- A hypothetical `core::fmt::Write` operation that performs the same
buffer update as `String`'s instance but reports failure on every
write; used to exhibit that the discarded `WriteResult` never
influences `dyn_path!`'s output. -/
def err_write (buf s : String) : WriteResult × String :=
  (Except.error (), buf ++ s)

/-- The "minimal allocation-only" build configuration: cargo feature
`alloc` without `std`. -/
def cfg_alloc_only : BuildConfig := BuildConfig.mk false true

/-- The "full standard environment" build configuration: cargo feature
`std` without `alloc`. -/
def cfg_full_std : BuildConfig := BuildConfig.mk true false

/-! ## Helper lemmas -/

/-- Once the accumulator is `none`, the remaining expansion performs no
lookup and evaluates no index expression: the result is `none` and the
state is unchanged. -/
theorem dyn_access_go_none {V : Type w} {K : Type u} {σ : Type v}
    (get : V → K → Option V) (sk : String → K)
    (segs : List (Seg K σ)) (st : σ) :
    dyn_access_go get sk none segs st = (none, st) := by
  induction segs with
  | nil => rfl
  | cons s rest ih =>
    cases s with
    | field n => simpa [dyn_access_go] using ih
    | index e => simpa [dyn_access_go] using ih

/-- The expansion of a concatenated segment list runs the first part,
then the second from the first part's accumulator and state. -/
theorem dyn_access_go_append {V : Type w} {K : Type u} {σ : Type v}
    (get : V → K → Option V) (sk : String → K) (acc : Option V)
    (xs ys : List (Seg K σ)) (st : σ) :
    dyn_access_go get sk acc (xs ++ ys) st
      = dyn_access_go get sk (dyn_access_go get sk acc xs st).1 ys
          (dyn_access_go get sk acc xs st).2 := by
  induction xs generalizing acc st with
  | nil => rfl
  | cons s rest ih =>
    cases s with
    | field n => simp [dyn_access_go, ih]
    | index e =>
      cases acc with
      | none => simp [dyn_access_go, ih]
      | some v => simp [dyn_access_go, ih]

/-- With an absent accumulator the reference trace is empty. -/
theorem accessTrace_none {V : Type w} {K : Type u}
    (get : V → K → Option V) (sk : String → K) (tsegs : List (TSeg K)) :
    accessTrace get sk none tsegs = [] := by
  cases tsegs with
  | nil => rfl
  | cons s rest => rfl

/-- Running the expansion over instrumented segments appends exactly the
reference trace to the log. -/
theorem dyn_access_go_log {V : Type w} {K : Type u}
    (get : V → K → Option V) (sk : String → K)
    (acc : Option V) (tsegs : List (TSeg K)) (log : List Nat) :
    (dyn_access_go get sk acc (tsegs.map logSeg) log).2
      = log ++ accessTrace get sk acc tsegs := by
  induction tsegs generalizing acc log with
  | nil => simp [dyn_access_go, accessTrace]
  | cons s rest ih =>
    cases s with
    | field n =>
      cases acc with
      | none =>
        simp [dyn_access_go, logSeg, accessTrace_none, ih, accessTrace]
      | some v =>
        simp [dyn_access_go, logSeg, accessTrace, ih]
    | index l k =>
      cases acc with
      | none =>
        simp [dyn_access_go, logSeg, accessTrace_none, ih, accessTrace]
      | some v =>
        simp [dyn_access_go, logSeg, accessTrace, ih]

/-- The reference trace is a sublist of the index labels: no label is
emitted twice, none out of order. -/
theorem accessTrace_sublist {V : Type w} {K : Type u}
    (get : V → K → Option V) (sk : String → K)
    (acc : Option V) (tsegs : List (TSeg K)) :
    List.Sublist (accessTrace get sk acc tsegs) (indexLabels tsegs) := by
  induction tsegs generalizing acc with
  | nil => simp [accessTrace, indexLabels]
  | cons s rest ih =>
    cases acc with
    | none =>
      rw [accessTrace_none]
      exact List.nil_sublist _
    | some v =>
      cases s with
      | field n =>
        simpa [accessTrace, indexLabels] using ih (get v (sk n))
      | index l k =>
        simpa [accessTrace, indexLabels] using
          List.Sublist.cons₂ l (ih (get v k))

/-- `dyn_path!`'s recursion relates to the spec-side rendering: the
buffer ends as the initial buffer followed by the rendered segments, and
the final state is the rendering's final state. -/
theorem dyn_path_goW_render {σ : Type v} (acc : String)
    (segs : List (PSeg σ)) (st : σ) :
    dyn_path_goW string_write acc segs st
      = (acc ++ (spec_render_segs segs st).1, (spec_render_segs segs st).2) := by
  induction segs generalizing acc st with
  | nil => simp [dyn_path_goW, spec_render_segs]
  | cons s rest ih =>
    cases s with
    | field n =>
      simp [dyn_path_goW, spec_render_segs, string_write, ih,
        String.append_assoc]
    | index e =>
      simp [dyn_path_goW, spec_render_segs, string_write, ih,
        String.append_assoc]

/-- Running `dyn_path!` over instrumented segments appends every index
label, in order, exactly once to the log. -/
theorem dyn_path_goW_log (w : String → String → WriteResult × String)
    (acc : String) (tps : List TPSeg) (log : List Nat) :
    (dyn_path_goW w acc (tps.map logPSeg) log).2 = log ++ pIndexLabels tps := by
  induction tps generalizing acc log with
  | nil => simp [dyn_path_goW, pIndexLabels]
  | cons s rest ih =>
    cases s with
    | field n => simp [dyn_path_goW, logPSeg, pIndexLabels, ih]
    | index l v => simp [dyn_path_goW, logPSeg, pIndexLabels, ih]

/-! ## Claim theorems -/

/-- C1: In `dyn_access!`, once the accumulator becomes absent no later
segment's lookup is performed and the overall result is absent; an index
segment's expression is only evaluated as part of the step that actually
executes, so when some intermediate lookup returns absent, the index
expressions of all segments after the failing one are never evaluated:
the final state is exactly the state reached at the failure point. -/
theorem dyn_access_absent_short_circuits {V : Type w} {K : Type u} {σ : Type v}
    (get : V → K → Option V) (sk : String → K) (head : V)
    (pre post : List (Seg K σ)) (st : σ)
    (h : (dyn_access_go get sk (some head) pre st).1 = none) :
    dyn_access_expr get sk head (pre ++ post) st
      = (none, (dyn_access_go get sk (some head) pre st).2) := by
  unfold dyn_access_expr
  rw [dyn_access_go_append, h, dyn_access_go_none]

/-- Witness for C1: on the test container, the field segment `missing`
fails, and with a logging index expression placed after it the overall
result is absent and the log stays empty — the index expression's side
effect never occurred. -/
theorem dyn_access_absent_short_circuits_witness :
    (dyn_access_go JValue.get JKey.str (some testMap)
        [Seg.field "missing"] ([] : List Nat)).1 = none
  ∧ dyn_access_expr JValue.get JKey.str testMap
      ([Seg.field "missing"]
        ++ [Seg.index (fun log => (JKey.idx 0, log ++ [7]))]) ([] : List Nat)
      = (none, []) :=
  ⟨rfl,
    dyn_access_absent_short_circuits JValue.get JKey.str testMap
      [Seg.field "missing"] [Seg.index (fun log => (JKey.idx 0, log ++ [7]))]
      [] rfl⟩

/-- C2: each step of `dyn_access!`, when the accumulator is present,
performs the uniform fetch with the stringified field name as key for a
field segment and with the index expression's evaluated value as key for
an index segment (the fetch itself returning an optional); and once
absent, all later steps are skipped and the final result is absent. -/
theorem dyn_access_step_characterisation {V : Type w} {K : Type u} {σ : Type v}
    (get : V → K → Option V) (sk : String → K) :
    (∀ (v : V) (n : String) (rest : List (Seg K σ)) (st : σ),
        dyn_access_go get sk (some v) (Seg.field n :: rest) st
          = dyn_access_go get sk (get v (sk n)) rest st)
  ∧ (∀ (v : V) (e : σ → K × σ) (rest : List (Seg K σ)) (st : σ),
        dyn_access_go get sk (some v) (Seg.index e :: rest) st
          = dyn_access_go get sk (get v (e st).1) rest (e st).2)
  ∧ (∀ (segs : List (Seg K σ)) (st : σ),
        dyn_access_go get sk none segs st = (none, st)) :=
  ⟨fun _ _ _ _ => rfl, fun _ _ _ _ => rfl,
    fun segs st => dyn_access_go_none get sk segs st⟩

/-- C3: `dyn_path!` produces exactly the stringified head name followed,
left to right, by `.name` for each field segment and the index value's
debug-style text in square brackets for each index segment, with each
index expression evaluated before formatting; a zero-segment invocation
yields exactly the head name; and the test-suite path
`very.nested["value"].on.index[1 + 1]` renders exactly as
`very.nested["value"].on.index[2]`. -/
theorem dyn_path_renders_segments :
    (∀ {σ : Type} (head : String) (segs : List (PSeg σ)) (st : σ),
        dyn_path head segs st
          = (head ++ (spec_render_segs segs st).1, (spec_render_segs segs st).2))
  ∧ (∀ {σ : Type} (head : String) (st : σ),
        dyn_path head ([] : List (PSeg σ)) st = (head, st))
  ∧ dyn_path "very"
      [PSeg.field "nested",
       PSeg.index (fun n : Nat => (DVal.str "value", n)),
       PSeg.field "on",
       PSeg.field "index",
       PSeg.index (fun n : Nat => (DVal.int (1 + 1), n))] 0
      = ("very.nested[\"value\"].on.index[2]", 0) :=
  ⟨fun head segs st => dyn_path_goW_render head segs st,
    fun _ _ => rfl, rfl⟩

/-- C4: a zero-segment invocation of `dyn_access!` yields a present
optional containing the starting value, for every starting value, with
no side effect on the state. -/
theorem dyn_access_zero_segments {V : Type w} {K : Type u} {σ : Type v}
    (get : V → K → Option V) (sk : String → K) (head : V) (st : σ) :
    dyn_access_expr get sk head ([] : List (Seg K σ)) st = (some head, st) :=
  rfl

/-- C5: `dyn_access!` is a total function into an optional result:
for every path and container it returns an `Option` value — absence is
the `none` constructor, presence a `some`; no other outcome (an error or
a panic) exists in the expansion. -/
theorem dyn_access_total_optional {V : Type w} {K : Type u} {σ : Type v}
    (get : V → K → Option V) (sk : String → K) (head : V)
    (segs : List (Seg K σ)) (st : σ) :
    (dyn_access_expr get sk head segs st).1 = none
      ∨ ∃ v : V, (dyn_access_expr get sk head segs st).1 = some v := by
  cases (dyn_access_expr get sk head segs st).1 with
  | none => exact Or.inl rfl
  | some v => exact Or.inr ⟨v, rfl⟩

/-- C6: at the same position in a path, a field segment named `very` and
an index segment whose expression is the string "very" expand to the
same lookup, for any container, continuation and state; on the test
suite's container both forms yield equal present results (test.rs
`access_types`). -/
theorem field_vs_string_index_access :
    (∀ {V σ : Type} (get : V → JKey → Option V) (acc : Option V)
        (rest : List (Seg JKey σ)) (st : σ),
        dyn_access_go get JKey.str acc (Seg.field "very" :: rest) st
          = dyn_access_go get JKey.str acc
              (Seg.index (fun s => (JKey.str "very", s)) :: rest) st)
  ∧ dyn_access_ident JValue.get JKey.str testMap [Seg.field "very"] 0
      = dyn_access_ident JValue.get JKey.str testMap
          [Seg.index (fun n : Nat => (JKey.str "very", n))] 0
  ∧ (dyn_access_ident JValue.get JKey.str testMap [Seg.field "very"] 0).1.isSome
      = true := by
  refine ⟨fun get acc rest st => ?_, rfl, rfl⟩
  cases acc with
  | none => simp [dyn_access_go]
  | some v => rfl

/-- C7: `dyn_path!` has no run-time failure path: each buffer write's
`core::fmt::Result` is discarded, so the output is the same under any
two write operations that update the buffer identically regardless of
the results they report; and the `String` write instance actually used
always reports success. -/
theorem dyn_path_discards_write_failures :
    (∀ {σ : Type} (w w' : String → String → WriteResult × String),
        (∀ b s, (w b s).2 = (w' b s).2) →
        ∀ (head : String) (segs : List (PSeg σ)) (st : σ),
          dyn_path_goW w head segs st = dyn_path_goW w' head segs st)
  ∧ (∀ b s, (string_write b s).1 = Except.ok ()) := by
  refine ⟨fun w w' h head segs st => ?_, fun _ _ => rfl⟩
  induction segs generalizing head st with
  | nil => rfl
  | cons s rest ih =>
    cases s with
    | field n =>
      simp only [dyn_path_goW, h]
      exact ih _ _
    | index e =>
      simp only [dyn_path_goW, h]
      exact ih _ _

/-- Witness for C7: a writer that fails on every write yields the same
output as the real `String` writer on a concrete path. -/
theorem dyn_path_discards_write_failures_witness :
    ((err_write "x" "y").1 = Except.error ()
      ∧ (string_write "x" "y").2 = (err_write "x" "y").2)
  ∧ dyn_path_goW string_write "very" ([PSeg.field "nested"] : List (PSeg Nat)) 0
      = dyn_path_goW err_write "very" ([PSeg.field "nested"] : List (PSeg Nat)) 0 :=
  ⟨⟨rfl, rfl⟩,
    dyn_path_discards_write_failures.1 string_write err_write
      (fun _ _ => rfl) "very" [PSeg.field "nested"] 0⟩

/-- C8: the `__import_alloc!` shim selects between two mutually
exclusive expansions: in every configuration exactly one of its two
definitions is compiled; in the minimal allocation-only configuration it
expands to the `ToString` use-item, in the full standard configuration
to no item at all; and `dyn_path!` behaves identically under the two
configurations. -/
theorem import_alloc_shim_selection :
    import_alloc_items cfg_alloc_only = ["use alloc::string::ToString;"]
  ∧ import_alloc_items cfg_full_std = []
  ∧ (∀ c : BuildConfig,
      (import_alloc_arm c = ImportArm.tostringUse
          ∧ import_alloc_arm c ≠ ImportArm.empty)
        ∨ (import_alloc_arm c = ImportArm.empty
          ∧ import_alloc_arm c ≠ ImportArm.tostringUse))
  ∧ (∀ {σ : Type} (head : String) (segs : List (PSeg σ)) (st : σ),
      dyn_path_cfg cfg_alloc_only head segs st
        = dyn_path_cfg cfg_full_std head segs st) := by
  refine ⟨rfl, rfl, fun c => ?_, fun _ _ _ => rfl⟩
  cases c with
  | mk s a =>
    cases a with
    | true => exact Or.inl ⟨rfl, fun hc => ImportArm.noConfusion hc⟩
    | false => exact Or.inr ⟨rfl, fun hc => ImportArm.noConfusion hc⟩

/-- C9: the bare-name head form of `dyn_access!` delegates to the
parenthesized-expression head form applied to the same name: the two
entry arms produce equal results for every head, segment list and
state. -/
theorem dyn_access_ident_delegates {V : Type w} {K : Type u} {σ : Type v}
    (get : V → K → Option V) (sk : String → K) (head : V)
    (segs : List (Seg K σ)) (st : σ) :
    dyn_access_ident get sk head segs st
      = dyn_access_expr get sk head segs st :=
  rfl

/-- C10: each index segment's expression is evaluated at most once.
With every index expression instrumented to log a distinguishing label:
in `dyn_access!` the final log appends exactly the reference trace —
one label, in order, for precisely those index steps executed with a
present accumulator — and when the labels are pairwise distinct the
trace (hence the multiset of performed evaluations) has no duplicate;
in `dyn_path!` the final log appends every index label exactly once, in
order. -/
theorem index_expressions_evaluated_at_most_once :
    (∀ {V K : Type} (get : V → K → Option V) (sk : String → K)
        (acc : Option V) (tsegs : List (TSeg K)) (log : List Nat),
        (dyn_access_go get sk acc (tsegs.map logSeg) log).2
          = log ++ accessTrace get sk acc tsegs)
  ∧ (∀ {V K : Type} (get : V → K → Option V) (sk : String → K)
        (acc : Option V) (tsegs : List (TSeg K)),
        (indexLabels tsegs).Nodup → (accessTrace get sk acc tsegs).Nodup)
  ∧ (∀ (head : String) (tps : List TPSeg) (log : List Nat),
        (dyn_path head (tps.map logPSeg) log).2 = log ++ pIndexLabels tps) :=
  ⟨fun get sk acc tsegs log => dyn_access_go_log get sk acc tsegs log,
    fun get sk acc tsegs h =>
      List.Nodup.sublist (accessTrace_sublist get sk acc tsegs) h,
    fun head tps log => dyn_path_goW_log string_write head tps log⟩

/-- Witness for C10: on the test container, with distinct labels `1`
and `2` on the two index segments of a path whose middle field segment
fails, the trace of performed evaluations has no duplicate. -/
theorem index_expressions_evaluated_at_most_once_witness :
    (indexLabels [TSeg.index 1 (JKey.str "very"), TSeg.field "missing",
        TSeg.index 2 (JKey.str "or")]).Nodup
  ∧ (accessTrace JValue.get JKey.str (some testMap)
      [TSeg.index 1 (JKey.str "very"), TSeg.field "missing",
        TSeg.index 2 (JKey.str "or")]).Nodup :=
  ⟨by decide,
    index_expressions_evaluated_at_most_once.2.1 JValue.get JKey.str
      (some testMap)
      [TSeg.index 1 (JKey.str "very"), TSeg.field "missing",
        TSeg.index 2 (JKey.str "or")]
      (by decide)⟩
